import Mathlib

/-!
Verification of mlx/backend/common/copy.cpp: the strided N-dimensional
array copy-and-cast engine.

The engine is embedded shallowly:
* buffers are total functions `Int → α` (element offsets into the backing
  buffer; the caller contract guarantees all visited offsets are in bounds,
  so the C pointer arithmetic — exact on in-bounds addresses — is modelled
  by exact `Int` arithmetic);
* the per-element `static_cast<DstT>` is an abstract `cast : α → β`
  parameter, with a concrete instance `uint_cast` for unsigned integer
  destinations;
* a kernel that writes the destination linearly (destination contiguous)
  returns the list of written values, in write order; the dual-stride
  kernel transforms a destination buffer `Int → β`.

`collapse_contiguous_dims` and `elem_to_loc` live in
mlx/backend/common/utils.h, which is not part of the sources here; they
are modelled from the specification (§4.1 Dimension Collapser, §6 index
utility).
-/

namespace Mlx

universe u v

variable {α : Type u} {β : Type v}

/-- The 4-way copy strategy enum (mlx/backend/common/copy.h). -/
inductive CopyType where
  | Scalar
  | Vector
  | General
  | GeneralGeneral
deriving DecidableEq, Repr

/-- The closed 13-tag dtype enumeration consumed by the dispatch switches. -/
inductive Dtype where
  | bool_
  | uint8
  | uint16
  | uint32
  | uint64
  | int8
  | int16
  | int32
  | int64
  | float16
  | float32
  | bfloat16
  | complex64
deriving DecidableEq, Repr

/-- Modelled from the spec: the index utility (`elem_to_loc`, utils.h)
"converts a linear element index into a strided memory offset given a shape
and a stride vector".  `loc` is its core recursion over dimensions listed
innermost-first as (size, stride) pairs: the linear index is peeled by
`% size` (the multi-index component, weighted by the stride) and `/ size`
(carried to the next-outer dimension). -/
def loc : Nat → List (Nat × Int) → Int
  | _, [] => 0
  | e, (d, s) :: rest => ((e % d : Nat) : Int) * s + loc (e / d) rest

/-- Modelled from the spec: `elem_to_loc elem shape strides` is the
strides-weighted multi-index of linear index `elem` under `shape`
(dimensions listed outermost-first, as in the source). -/
def elem_to_loc (elem : Nat) (shape : List Nat) (strides : List Int) : Int :=
  loc elem ((shape.zip strides).reverse)

/-- A single store into a destination buffer. -/
def store (f : Int → β) (k : Int) (v : β) : Int → β :=
  fun x => if x = k then v else f x

/-- Install a list of values at linear offsets 0, 1, … of a buffer: the
final state of a kernel that writes `dst_ptr[dst_idx++] = v` starting from
`dst_idx = 0`. -/
def writeList (dst0 : Int → β) (l : List β) : Int → β :=
  fun j => if h : 0 ≤ j ∧ j.toNat < l.length then l.get ⟨j.toNat, h.2⟩ else dst0 j

/-- copy.cpp lines 13-20, `copy_single`: read the single source element,
cast it once, and store it to every destination element `0 ≤ i < dst.size()`. -/
def copy_single (src : Int → α) (cast : α → β) (dst_size : Nat) : List β :=
  (List.range dst_size).map fun _ => cast (src 0)

/-- copy.cpp lines 22-27, `copy_vector`: flat element-wise cast of
`src.data_size()` elements (`std::copy` assigns `dst_ptr[i] = src_ptr[i]`,
converting each element to the destination type). -/
def copy_vector (src : Int → α) (cast : α → β) (data_size : Nat) : List β :=
  (List.range data_size).map fun (i : Nat) => cast (src i)

/-- copy.cpp lines 29-44, `copy_general_dim1`: rank-1 strided loop,
`dst_ptr[dst_idx++] = cast(src_ptr[src_idx]); src_idx += i_strides[0]`
starting from `src_idx = i_offset`. -/
def copy_general_dim1 (src : Int → α) (cast : α → β)
    (data_shape : List Nat) (i_strides : List Int) (i_offset : Int) : List β :=
  (List.range (data_shape.getD 0 0)).map fun (i : Nat) =>
    cast (src (i_offset + i_strides.getD 0 0 * i))

/-- copy.cpp lines 29-298, `copy_general_dim1` … `copy_general_dim7`,
embedded uniformly: the rank-N kernels are the N-fold unrollings of this
loop nest.  Each loop level advances the source index by its stride; after
an inner loop finishes, the source adds `s[k] - s[k+1] * d[k+1]` (the
precomputed `adj` increments of the dim-5/6/7 kernels), which restores it
to the level's base plus one outer stride — i.e. level `k` visits base
offsets `i_offset + s[k] * i`.  The destination index is the running
linear counter, so the output is the list of written values in order. -/
def copy_general_dims (src : Int → α) (cast : α → β) :
    List Nat → List Int → Int → List β
  | [], _, i_offset => [cast (src i_offset)]
  | d :: ds, s :: ss, i_offset =>
      (List.range d).flatMap fun (i : Nat) =>
        copy_general_dims src cast ds ss (i_offset + s * i)
  | _ :: _, [], _ => []

/-- Modelled from the spec: the Dimension Collapser core (§4.1), over
dimensions listed innermost-first, each carrying its per-buffer strides.
Scanning from the innermost outward, the next-outer dimension `d` merges
into the already-processed innermost group `e` iff for every supplied
stride vector `stride[d] = stride[e] * size[e]` (advancing one step in `d`
is `size[e]` steps in `e` for that buffer); a dimension of size 1 is
absorbed trivially.  A merged pair becomes one dimension of size
`size[d] * size[e]` with the inner strides. -/
def collapseDims : List (Nat × List Int) → List (Nat × List Int)
  | [] => []
  | [p] => [p]
  | e :: d :: rest =>
      if d.1 = 1 ∨ ∀ q ∈ d.2.zip e.2, q.1 = q.2 * (e.1 : Int) then
        collapseDims ((d.1 * e.1, e.2) :: rest)
      else
        e :: collapseDims (d :: rest)
termination_by l => l.length

/-- Repackage a shape and parallel stride vectors into the innermost-first
per-dimension form consumed by `collapseDims`. -/
def packDims : List Nat → List (List Int) → List (Nat × List Int)
  | [], _ => []
  | d :: ds, sts =>
      packDims ds (sts.map List.tail) ++ [(d, sts.map fun st => st.headD 0)]

/-- Modelled from the spec: `collapse_contiguous_dims` (utils.h, §4.1):
given a shape and one or more parallel stride vectors, produce a reduced
shape and correspondingly reduced stride vectors that visit the same
offsets in the same order for every supplied stride vector simultaneously. -/
def collapse_contiguous_dims (shape : List Nat) (strides : List (List Int)) :
    List Nat × List (List Int) :=
  let c := collapseDims (packDims shape strides)
  ((c.map Prod.fst).reverse,
   (List.range strides.length).map fun v => (c.map fun p => p.2.getD v 0).reverse)

/-- Project the per-dimension stride lists onto stride vector `v`. -/
def projDims (v : Nat) (dims : List (Nat × List Int)) : List (Nat × Int) :=
  dims.map fun p => (p.1, p.2.getD v 0)

/-- copy.cpp lines 300-346, `copy_general` (single-stride, destination
contiguous): collapse the dimensions, dispatch to the rank-1..7
specialized kernel when the collapsed rank is in that range, otherwise
fall back to the per-element `elem_to_loc` loop over `dst.size()`
elements. -/
def copy_general (src : Int → α) (cast : α → β) (data_shape : List Nat)
    (i_strides : List Int) (i_offset : Int) (dst_size : Nat) : List β :=
  let col := collapse_contiguous_dims data_shape [i_strides]
  let new_shape := col.1
  let new_strides0 := col.2.getD 0 []
  if 1 ≤ new_shape.length ∧ new_shape.length ≤ 7 then
    copy_general_dims src cast new_shape new_strides0 i_offset
  else
    (List.range dst_size).map fun (i : Nat) =>
      cast (src (i_offset + elem_to_loc i new_shape new_strides0))

/-- copy.cpp lines 367-400, `copy_general_general_dims<D>`: the
compile-time-recursive dual-stride walk over the last `D` axes, here
received as the `D`-element tails of the shape/stride vectors
(`axis = data_shape.size() - D`).  Each level advances both offsets by the
axis strides; the base case performs the innermost loop with two
independent running pointers. -/
def copy_general_general_dims (src : Int → α) (cast : α → β) :
    List Nat → List Int → List Int → Int → Int → (Int → β) → (Int → β)
  | [d], si :: _, so :: _, i_offset, o_offset, dst =>
      (List.range d).foldl
        (fun acc (i : Nat) =>
          store acc (o_offset + so * i) (cast (src (i_offset + si * i)))) dst
  | d :: ds, si :: sis, so :: sos, i_offset, o_offset, dst =>
      (List.range d).foldl
        (fun acc (i : Nat) =>
          copy_general_general_dims src cast ds sis sos
            (i_offset + si * i) (o_offset + so * i) acc) dst
  | _, _, _, _, _, dst => dst

/-- copy.cpp lines 402-480, `copy_general_general`: collapse with both
stride vectors; for collapsed rank 1-5 run the recursive dual-stride
kernel over all axes; beyond 5, drive the outer dimensions by an explicit
chunk loop (`for (i = 0; i < src.size(); i += size)` with `size` the
product of the last 5 collapsed dimensions), computing each chunk's start
offsets for both sides via `elem_to_loc`, then delegating the last 5
dimensions to the recursive kernel. -/
def copy_general_general (src : Int → α) (cast : α → β) (data_shape : List Nat)
    (i_strides o_strides : List Int) (i_offset o_offset : Int)
    (src_size : Nat) (dst : Int → β) : Int → β :=
  let col := collapse_contiguous_dims data_shape [i_strides, o_strides]
  let ns := col.1
  let is0 := col.2.getD 0 []
  let os0 := col.2.getD 1 []
  if 1 ≤ ns.length ∧ ns.length ≤ 5 then
    copy_general_general_dims src cast ns is0 os0 i_offset o_offset dst
  else
    let size := (ns.drop (ns.length - 5)).prod
    (List.range ((src_size + size - 1) / size)).foldl
      (fun acc (c : Nat) =>
        let i := c * size
        copy_general_general_dims src cast
          (ns.drop (ns.length - 5)) (is0.drop (is0.length - 5)) (os0.drop (os0.length - 5))
          (i_offset + elem_to_loc i ns is0) (o_offset + elem_to_loc i ns os0) acc) dst

/-- The brute-force dual-stride reference: for each destination element
`j` in order, write the cast of the source element at
`i_offset + elem_to_loc j shape i_strides` to destination offset
`o_offset + elem_to_loc j shape o_strides`, both computed independently
from the original, uncollapsed shape and strides. -/
def general_general_ref (src : Int → α) (cast : α → β) (shape : List Nat)
    (i_strides o_strides : List Int) (i_offset o_offset : Int)
    (dst : Int → β) : Int → β :=
  (List.range shape.prod).foldl
    (fun acc (j : Nat) =>
      store acc (o_offset + elem_to_loc j shape o_strides)
        (cast (src (i_offset + elem_to_loc j shape i_strides)))) dst

/-- `static_cast<DstT>` for a `w`-bit unsigned integer destination: C++
integer conversion to an unsigned type reduces the value modulo `2^w`
(two's-complement wraparound). -/
def uint_cast (w : Nat) (x : Int) : Int := x % ((2 : Int) ^ w)

/-- Row-major (identity) strides of a shape: each dimension's stride is
the product of the dimensions inner to it. -/
def rowMajor : List Nat → List Int
  | [] => []
  | _ :: ds => ((ds.prod : Nat) : Int) :: rowMajor ds

/-- The source array view as consumed by the orchestrator: buffer identity
(the data pointer), buffer contents, shape/strides, reachable element
count (`data_size`), element byte width, the donatable flag and the flags
word (kept as an abstract token). -/
structure SrcArr (α : Type u) where
  buf : Nat
  data : Int → α
  shape : List Nat
  strides : List Int
  data_size : Nat
  itemsize : Nat
  donatable : Bool
  flagsTok : Nat

/-- The destination array descriptor before its buffer is set: logical
shape, its own strides, element byte width and flags token. -/
structure DstDesc where
  shape : List Nat
  strides : List Int
  itemsize : Nat
  flagsTok : Nat

/-- Logical element count of the destination (`dst.size()`). -/
def DstDesc.size (d : DstDesc) : Nat := d.shape.prod

/-- Byte size of the destination (`dst.nbytes() = size * itemsize`). -/
def DstDesc.nbytes (d : DstDesc) : Nat := d.size * d.itemsize

/-- Observable outcome of the top-level `copy` orchestrator: which buffer
the destination ends up pointing at, how many bytes were freshly
allocated (none for donation), the strides/flags installed on the
destination, the final destination buffer contents, and the number of
element-wise kernel writes executed. -/
structure CopyResult (β : Type v) where
  dstBuf : Nat
  alloc : Option Nat
  dstStrides : List Int
  dstFlags : Nat
  contents : Int → β
  loopWrites : Nat

/-- copy.cpp lines 601-603 / 489-503, the unstrided `copy_inplace`: the
dtype dispatch resolves `cast` (abstract here), then the `ctype` switch
runs the matching kernel over the existing destination buffer `dst0`. -/
def copy_inplace (src : SrcArr α) (cast : α → β) (dst : DstDesc)
    (dst0 : Int → β) (ctype : CopyType) : Int → β :=
  match ctype with
  | .Scalar => writeList dst0 (copy_single src.data cast dst.size)
  | .Vector => writeList dst0 (copy_vector src.data cast src.data_size)
  | .General =>
      writeList dst0 (copy_general src.data cast src.shape src.strides 0 dst.size)
  | .GeneralGeneral =>
      copy_general_general src.data cast src.shape src.strides dst.strides 0 0
        src.shape.prod dst0

/-- Number of element-wise writes the kernel selected by `ctype` performs
(the iteration count of its write loop). -/
def kernelWrites (src : SrcArr α) (cast : α → β) (dst : DstDesc)
    (ctype : CopyType) : Nat :=
  match ctype with
  | .Scalar => dst.size
  | .Vector => src.data_size
  | .General => (copy_general src.data cast src.shape src.strides 0 dst.size).length
  | .GeneralGeneral => src.shape.prod

/-- copy.cpp lines 605-630, the top-level `copy` orchestrator: allocate or
donate the destination buffer according to the strategy (`Vector` with a
donatable source of equal element size shares the source buffer;
`Vector` otherwise allocates `data_size * itemsize` bytes and inherits the
source's strides and flags; the other strategies allocate `nbytes`
bytes), downgrade `GeneralGeneral` to `General`, then run `copy_inplace`. -/
def copy (src : SrcArr α) (cast : α → β) (dst : DstDesc) (dst0 : Int → β)
    (freshBuf : Nat) (ctype : CopyType) : CopyResult β :=
  let alloc : Nat × Option Nat × List Int × Nat :=
    match ctype with
    | .Vector =>
        if src.donatable = true ∧ src.itemsize = dst.itemsize then
          (src.buf, none, src.strides, src.flagsTok)
        else
          (freshBuf, some (src.data_size * dst.itemsize), src.strides, src.flagsTok)
    | _ => (freshBuf, some dst.nbytes, dst.strides, dst.flagsTok)
  let ctype2 := if ctype = CopyType.GeneralGeneral then CopyType.General else ctype
  { dstBuf := alloc.1
    alloc := alloc.2.1
    dstStrides := alloc.2.2.1
    dstFlags := alloc.2.2.2
    contents := copy_inplace src cast dst dst0 ctype2
    loopWrites := kernelWrites src cast dst ctype2 }

/-- copy.cpp lines 632-659, the strided `copy_inplace` overload: `General`
and `GeneralGeneral` forward the explicit shape, both stride vectors and
both offsets to the dispatch; for `General` the forwarding overload of
`copy_general` (lines 354-365) discards `o_strides` and `o_offset`.
`Scalar` and `Vector` call the dispatch without the extra arguments,
behaving exactly like the unstrided `copy_inplace`. -/
def copy_inplace_strided (src : SrcArr α) (cast : α → β) (dst : DstDesc)
    (dst0 : Int → β) (data_shape : List Nat) (i_strides o_strides : List Int)
    (i_offset o_offset : Int) (ctype : CopyType) : Int → β :=
  match ctype with
  | .General =>
      writeList dst0 (copy_general src.data cast data_shape i_strides i_offset dst.size)
  | .GeneralGeneral =>
      copy_general_general src.data cast data_shape i_strides o_strides
        i_offset o_offset src.shape.prod dst0
  | .Scalar => copy_inplace src cast dst dst0 .Scalar
  | .Vector => copy_inplace src cast dst dst0 .Vector

/-- Tag naming which concrete kernel family the innermost switch selects. -/
inductive Kernel where
  | single
  | vector
  | general
  | general_general
deriving DecidableEq, Repr

/-- copy.cpp lines 488-503, the innermost `copy<SrcT, DstT>` switch: maps
the strategy to the concrete kernel (all four enum values are enumerated,
no default branch). -/
def copy_kernel_select (ctype : CopyType) : Kernel :=
  match ctype with
  | .Scalar => .single
  | .Vector => .vector
  | .General => .general
  | .GeneralGeneral => .general_general

/-- copy.cpp lines 505-548, the `copy<SrcT>` destination-dtype switch:
each of the 13 dtype tags selects the concrete (SrcT, DstT) instantiation;
there is no default branch, so an unlisted tag would fall through with no
kernel selected — modelled by the `Option`. -/
def copy_dst_dtype (s : Dtype) (d : Dtype) (ctype : CopyType) :
    Option (Dtype × Dtype × Kernel) :=
  match d with
  | .bool_ => some (s, .bool_, copy_kernel_select ctype)
  | .uint8 => some (s, .uint8, copy_kernel_select ctype)
  | .uint16 => some (s, .uint16, copy_kernel_select ctype)
  | .uint32 => some (s, .uint32, copy_kernel_select ctype)
  | .uint64 => some (s, .uint64, copy_kernel_select ctype)
  | .int8 => some (s, .int8, copy_kernel_select ctype)
  | .int16 => some (s, .int16, copy_kernel_select ctype)
  | .int32 => some (s, .int32, copy_kernel_select ctype)
  | .int64 => some (s, .int64, copy_kernel_select ctype)
  | .float16 => some (s, .float16, copy_kernel_select ctype)
  | .float32 => some (s, .float32, copy_kernel_select ctype)
  | .bfloat16 => some (s, .bfloat16, copy_kernel_select ctype)
  | .complex64 => some (s, .complex64, copy_kernel_select ctype)

/-- copy.cpp lines 550-597, `copy_inplace_dispatch`: the source-dtype
switch over the same closed 13-tag set, forwarding to the
destination-dtype switch. -/
def copy_inplace_dispatch (s : Dtype) (d : Dtype) (ctype : CopyType) :
    Option (Dtype × Dtype × Kernel) :=
  match s with
  | .bool_ => copy_dst_dtype .bool_ d ctype
  | .uint8 => copy_dst_dtype .uint8 d ctype
  | .uint16 => copy_dst_dtype .uint16 d ctype
  | .uint32 => copy_dst_dtype .uint32 d ctype
  | .uint64 => copy_dst_dtype .uint64 d ctype
  | .int8 => copy_dst_dtype .int8 d ctype
  | .int16 => copy_dst_dtype .int16 d ctype
  | .int32 => copy_dst_dtype .int32 d ctype
  | .int64 => copy_dst_dtype .int64 d ctype
  | .float16 => copy_dst_dtype .float16 d ctype
  | .float32 => copy_dst_dtype .float32 d ctype
  | .bfloat16 => copy_dst_dtype .bfloat16 d ctype
  | .complex64 => copy_dst_dtype .complex64 d ctype

/-! ## Index arithmetic for `loc` / `elem_to_loc` -/

theorem loc_zero (l : List (Nat × Int)) : loc 0 l = 0 := by
  induction l with
  | nil => rfl
  | cons p rest ih =>
      obtain ⟨d, s⟩ := p
      simp [loc, ih]

theorem loc_append (e : Nat) (l1 l2 : List (Nat × Int)) :
    loc e (l1 ++ l2) = loc e l1 + loc (e / (l1.map Prod.fst).prod) l2 := by
  induction l1 generalizing e with
  | nil => simp [loc]
  | cons p t ih =>
      obtain ⟨d, s⟩ := p
      simp only [List.cons_append, loc, List.append_eq, ih (e / d), List.map_cons,
        List.prod_cons]
      rw [Nat.div_div_eq_div_mul]
      ring

theorem loc_add_mul (j i : Nat) (l : List (Nat × Int)) :
    loc (j + (l.map Prod.fst).prod * i) l = loc j l := by
  induction l generalizing j i with
  | nil => rfl
  | cons p t ih =>
      obtain ⟨d, s⟩ := p
      simp only [List.map_cons, List.prod_cons]
      rcases Nat.eq_zero_or_pos d with hd | hd
      · subst hd
        simp
      · simp only [loc, mul_assoc]
        rw [Nat.add_mul_mod_self_left, Nat.add_mul_div_left _ _ hd, ih]

theorem zip_reverse_prod (ds : List Nat) (ss : List Int) (h : ds.length ≤ ss.length) :
    (((ds.zip ss).reverse).map Prod.fst).prod = ds.prod := by
  rw [List.map_reverse, List.prod_reverse, List.map_fst_zip ds ss h]

theorem elem_to_loc_cons (e d : Nat) (s : Int) (ds : List Nat) (ss : List Int)
    (h : ds.length ≤ ss.length) :
    elem_to_loc e (d :: ds) (s :: ss)
      = elem_to_loc e ds ss + ((e / ds.prod % d : Nat) : Int) * s := by
  unfold elem_to_loc
  rw [List.zip_cons_cons, List.reverse_cons, loc_append, zip_reverse_prod ds ss h]
  simp [loc]

theorem elem_to_loc_add_mul (j i : Nat) (shape : List Nat) (str : List Int)
    (h : shape.length ≤ str.length) :
    elem_to_loc (j + shape.prod * i) shape str = elem_to_loc j shape str := by
  unfold elem_to_loc
  rw [← zip_reverse_prod shape str h]
  exact loc_add_mul j i _

/-- The inner-index decomposition used by every nested kernel: linear index
`i * P + j` of the cons shape, with `P` the product of the inner
dimensions, splits into the inner multi-index of `j` plus `i` outer
strides. -/
theorem elem_to_loc_mul_add (i j d : Nat) (s : Int) (tail : List Nat) (stail : List Int)
    (hlen : tail.length ≤ stail.length) (hj : j < tail.prod) (hi : i < d) :
    elem_to_loc (i * tail.prod + j) (d :: tail) (s :: stail)
      = elem_to_loc j tail stail + (i : Int) * s := by
  have hP : 0 < tail.prod := Nat.pos_of_ne_zero fun h0 => by simp [h0] at hj
  rw [elem_to_loc_cons _ _ _ _ _ hlen]
  have h1 : i * tail.prod + j = j + tail.prod * i := by ring
  rw [h1, elem_to_loc_add_mul _ _ _ _ hlen]
  have h2 : (j + tail.prod * i) / tail.prod = i := by
    rw [Nat.add_mul_div_left _ _ hP, Nat.div_eq_of_lt hj, Nat.zero_add]
  rw [h2, Nat.mod_eq_of_lt hi]

/-! ## Decomposing ranges of products -/

theorem range_mul_flatMap (d P : Nat) :
    List.range (d * P)
      = (List.range d).flatMap fun i => (List.range P).map fun j => i * P + j := by
  induction d with
  | zero => simp
  | succ n ih =>
      rw [Nat.succ_mul, List.range_add, ih, List.range_succ, List.flatMap_append]
      simp

theorem foldl_range_mul {γ : Type w} (f : γ → Nat → γ) (a : γ) (d P : Nat) :
    (List.range (d * P)).foldl f a
      = (List.range d).foldl
          (fun acc i => (List.range P).foldl (fun acc2 j => f acc2 (i * P + j)) acc) a := by
  induction d generalizing a with
  | zero => simp
  | succ n ih =>
      rw [Nat.succ_mul, List.range_add, List.foldl_append, ih, List.range_succ,
        List.foldl_append]
      simp [List.foldl_map]

theorem flatMap_congr {γ : Type w} {δ : Type x} {l : List γ} {f g : γ → List δ}
    (h : ∀ a ∈ l, f a = g a) : l.flatMap f = l.flatMap g := by
  induction l with
  | nil => rfl
  | cons a t ih =>
      simp only [List.flatMap_cons]
      rw [h a (List.mem_cons_self a t), ih fun b hb => h b (List.mem_cons_of_mem a hb)]

/-! ## The single-stride loop nest visits `elem_to_loc` offsets in order -/

theorem copy_general_dims_eq (src : Int → α) (cast : α → β) :
    ∀ (shape : List Nat) (str : List Int) (off : Int),
    shape.length ≤ str.length →
    copy_general_dims src cast shape str off
      = (List.range shape.prod).map fun j => cast (src (off + elem_to_loc j shape str)) := by
  intro shape
  induction shape with
  | nil =>
      intro str off _
      simp [copy_general_dims, elem_to_loc, loc]
  | cons d ds ih =>
      intro str off h
      cases str with
      | nil => simp at h
      | cons s ss =>
          have h' : ds.length ≤ ss.length := by simpa using h
          simp only [copy_general_dims]
          rw [List.prod_cons, range_mul_flatMap, List.map_flatMap]
          apply flatMap_congr
          intro i hi
          have hid : i < d := List.mem_range.mp hi
          rw [ih ss (off + s * (i : Int)) h', List.map_map]
          apply List.map_congr_left
          intro j hj
          have hjP : j < ds.prod := List.mem_range.mp hj
          simp only [Function.comp_apply]
          rw [elem_to_loc_mul_add i j d s ds ss h' hjP hid]
          ring_nf

/-! ## The collapser preserves `loc`, products, and stride-list lengths -/

theorem collapseDims_stride_len (nv : Nat) :
    ∀ dims : List (Nat × List Int), (∀ p ∈ dims, (Prod.snd p).length = nv) →
    ∀ p ∈ collapseDims dims, (Prod.snd p).length = nv := by
  intro dims
  induction dims using collapseDims.induct with
  | case1 => intro H p hp; simp [collapseDims] at hp
  | case2 r => intro H p hp; rw [collapseDims] at hp; exact H p hp
  | case3 p q rest hcond ih =>
      intro H r hr
      rw [collapseDims, if_pos hcond] at hr
      refine ih ?_ r hr
      intro r' hr'
      rcases List.mem_cons.mp hr' with h | h
      · rw [h]; exact H p (by simp)
      · exact H r' (by simp [h])
  | case4 p q rest hcond ih =>
      intro H r hr
      rw [collapseDims, if_neg hcond] at hr
      rcases List.mem_cons.mp hr with h | h
      · rw [h]; exact H p (by simp)
      · refine ih ?_ r h
        intro r' hr'
        exact H r' (by simp [List.mem_cons.mp hr'])

theorem collapseDims_prod :
    ∀ dims : List (Nat × List Int),
    ((collapseDims dims).map Prod.fst).prod = (dims.map Prod.fst).prod := by
  intro dims
  induction dims using collapseDims.induct with
  | case1 => rw [collapseDims]
  | case2 r => rw [collapseDims]
  | case3 p q rest hcond ih =>
      rw [collapseDims, if_pos hcond, ih]
      simp only [List.map_cons, List.prod_cons]
      ring
  | case4 p q rest hcond ih =>
      rw [collapseDims, if_neg hcond]
      simp only [List.map_cons, List.prod_cons] at ih ⊢
      rw [ih]

theorem collapseDims_ne_nil :
    ∀ dims : List (Nat × List Int), dims ≠ [] → collapseDims dims ≠ [] := by
  intro dims
  induction dims using collapseDims.induct with
  | case1 => intro h; exact absurd rfl h
  | case2 r => intro _; simp [collapseDims]
  | case3 p q rest hcond ih =>
      intro _
      rw [collapseDims, if_pos hcond]
      exact ih (by simp)
  | case4 p q rest hcond ih =>
      intro _
      rw [collapseDims, if_neg hcond]
      simp

theorem loc_collapseDims (v nv : Nat) (hv : v < nv) :
    ∀ dims : List (Nat × List Int), (∀ p ∈ dims, (Prod.snd p).length = nv) →
    ∀ n : Nat, loc n (projDims v (collapseDims dims)) = loc n (projDims v dims) := by
  intro dims
  induction dims using collapseDims.induct with
  | case1 => intro _ n; rw [collapseDims]
  | case2 r => intro _ n; rw [collapseDims]
  | case3 p q rest hcond ih =>
      intro H n
      rw [collapseDims, if_pos hcond]
      have H' : ∀ r' ∈ (q.1 * p.1, p.2) :: rest, (Prod.snd r').length = nv := by
        intro r' hr'
        rcases List.mem_cons.mp hr' with h | h
        · rw [h]; exact H p (by simp)
        · exact H r' (by simp [h])
      rw [ih H' n]
      simp only [projDims, List.map_cons, loc]
      have hdiv : n / (q.1 * p.1) = n / p.1 / q.1 := by
        rw [Nat.div_div_eq_div_mul, Nat.mul_comm]
      rcases hcond with h1 | hstr
      · rw [h1]
        simp [Nat.mod_one, Nat.div_one, Nat.one_mul]
      · have hq : v < q.2.length := by rw [H q (by simp)]; exact hv
        have hp2 : v < p.2.length := by rw [H p (by simp)]; exact hv
        have hzlen : v < (q.2.zip p.2).length := by
          rw [List.length_zip]; exact lt_min hq hp2
        have hmem : (q.2.getD v 0, p.2.getD v 0) ∈ q.2.zip p.2 := by
          have hm := List.getElem_mem hzlen
          rw [List.getElem_zip] at hm
          rw [List.getD_eq_getElem _ _ hq, List.getD_eq_getElem _ _ hp2]
          exact hm
        have hs : q.2.getD v 0 = p.2.getD v 0 * (p.1 : Int) := hstr _ hmem
        have hmod : n % (q.1 * p.1) = n % p.1 + p.1 * (n / p.1 % q.1) := by
          rw [Nat.mul_comm]; exact Nat.mod_mul
        rw [hs, hmod, hdiv]
        push_cast
        ring
  | case4 p q rest hcond ih =>
      intro H n
      rw [collapseDims, if_neg hcond]
      have H' : ∀ r' ∈ q :: rest, (Prod.snd r').length = nv := by
        intro r' hr'
        exact H r' (by simp [List.mem_cons.mp hr'])
      simp only [projDims, List.map_cons, loc] at ih ⊢
      rw [ih H' (n / p.1)]

/-! ## Plumbing between `(shape, strides)` and the packed dimension form -/

theorem packDims_map_fst :
    ∀ (shape : List Nat) (sts : List (List Int)),
    (packDims shape sts).map Prod.fst = shape.reverse := by
  intro shape
  induction shape with
  | nil => intro sts; rfl
  | cons d ds ih =>
      intro sts
      simp only [packDims, List.map_append, ih, List.reverse_cons, List.map_cons,
        List.map_nil]

theorem packDims_stride_len :
    ∀ (shape : List Nat) (sts : List (List Int)),
    ∀ p ∈ packDims shape sts, (Prod.snd p).length = sts.length := by
  intro shape
  induction shape with
  | nil => intro sts p hp; simp [packDims] at hp
  | cons d ds ih =>
      intro sts p hp
      rw [packDims] at hp
      rcases List.mem_append.mp hp with h | h
      · rw [ih _ p h, List.length_map]
      · simp at h
        rw [h, List.length_map]

theorem projDims_packDims :
    ∀ (shape : List Nat) (sts : List (List Int)) (v : Nat), v < sts.length →
    (sts.getD v []).length = shape.length →
    projDims v (packDims shape sts) = (shape.zip (sts.getD v [])).reverse := by
  intro shape
  induction shape with
  | nil => intro sts v _ _; rfl
  | cons d ds ih =>
      intro sts v hv hlen
      have hvm : v < (sts.map List.tail).length := by simpa using hv
      have hsv : sts.getD v [] = sts.get ⟨v, hv⟩ := by
        rw [List.getD_eq_getElem _ _ hv, List.get_eq_getElem]
      rcases hcons : sts.getD v [] with _ | ⟨h0, t0⟩
      · rw [hcons] at hlen; simp at hlen
      · have htail : (sts.map List.tail).getD v [] = t0 := by
          rw [List.getD_eq_getElem _ _ hvm, List.getElem_map]
          have : sts[v] = h0 :: t0 := by
            rw [← List.getD_eq_getElem sts [] hv, hcons]
          rw [this]
          rfl
        have hhead : (sts.map fun st => st.headD 0).getD v 0 = h0 := by
          rw [List.getD_eq_getElem _ _ (by simpa using hv), List.getElem_map]
          have : sts[v] = h0 :: t0 := by
            rw [← List.getD_eq_getElem sts [] hv, hcons]
          rw [this]
          rfl
        have hlent : t0.length = ds.length := by
          rw [hcons] at hlen
          simpa using hlen
        simp only [packDims, projDims, List.map_append, List.map_cons, List.map_nil]
        have ihx := ih (sts.map List.tail) v hvm (by rw [htail]; exact hlent)
        simp only [projDims] at ihx
        rw [ihx, htail, hhead, List.zip_cons_cons, List.reverse_cons]

theorem collapse_zip (shape : List Nat) (sts : List (List Int)) (v : Nat)
    (hv : v < sts.length) :
    (((collapse_contiguous_dims shape sts).1).zip
        ((collapse_contiguous_dims shape sts).2.getD v [])).reverse
      = projDims v (collapseDims (packDims shape sts)) := by
  unfold collapse_contiguous_dims
  simp only []
  have h2 : ((List.range sts.length).map
        fun v2 => ((collapseDims (packDims shape sts)).map fun p => p.2.getD v2 0).reverse).getD v []
      = ((collapseDims (packDims shape sts)).map fun p => p.2.getD v 0).reverse := by
    rw [List.getD_eq_getElem _ _ (by simpa using hv), List.getElem_map, List.getElem_range]
  rw [h2, ← List.map_reverse, ← List.map_reverse, List.zip_map',
    ← List.map_reverse, List.reverse_reverse]
  rfl

theorem elem_to_loc_collapse (shape : List Nat) (sts : List (List Int)) (v : Nat)
    (hv : v < sts.length) (hlen : (sts.getD v []).length = shape.length) (e : Nat) :
    elem_to_loc e (collapse_contiguous_dims shape sts).1
        ((collapse_contiguous_dims shape sts).2.getD v [])
      = elem_to_loc e shape (sts.getD v []) := by
  unfold elem_to_loc
  rw [collapse_zip shape sts v hv,
    loc_collapseDims v sts.length hv _ (packDims_stride_len shape sts) e,
    ← projDims_packDims shape sts v hv hlen]

theorem collapse_prod (shape : List Nat) (sts : List (List Int)) :
    (collapse_contiguous_dims shape sts).1.prod = shape.prod := by
  unfold collapse_contiguous_dims
  simp only []
  rw [List.prod_reverse, collapseDims_prod, packDims_map_fst, List.prod_reverse]

theorem collapse_len (shape : List Nat) (sts : List (List Int)) (v : Nat)
    (hv : v < sts.length) :
    ((collapse_contiguous_dims shape sts).2.getD v []).length
      = (collapse_contiguous_dims shape sts).1.length := by
  unfold collapse_contiguous_dims
  simp only []
  rw [List.getD_eq_getElem _ _ (by simpa using hv), List.getElem_map]
  simp

theorem packDims_ne_nil (shape : List Nat) (sts : List (List Int)) (h : shape ≠ []) :
    packDims shape sts ≠ [] := by
  cases shape with
  | nil => exact absurd rfl h
  | cons d ds => simp [packDims]

theorem collapse_ne_nil (shape : List Nat) (sts : List (List Int)) (h : shape ≠ []) :
    (collapse_contiguous_dims shape sts).1 ≠ [] := by
  unfold collapse_contiguous_dims
  simp only []
  intro hc
  rw [List.reverse_eq_nil_iff, List.map_eq_nil_iff] at hc
  exact collapseDims_ne_nil _ (packDims_ne_nil shape sts h) hc

/-! ## Correctness of `copy_general` against the `elem_to_loc` reference -/

theorem copy_general_correct (src : Int → α) (cast : α → β) (shape : List Nat)
    (istr : List Int) (ioff : Int) (h : istr.length = shape.length) :
    copy_general src cast shape istr ioff shape.prod
      = (List.range shape.prod).map fun j => cast (src (ioff + elem_to_loc j shape istr)) := by
  have h01 : (0 : Nat) < ([istr] : List (List Int)).length := by simp
  have hg : ([istr] : List (List Int)).getD 0 [] = istr := rfl
  have hcl : ((collapse_contiguous_dims shape [istr]).2.getD 0 []).length
      = (collapse_contiguous_dims shape [istr]).1.length :=
    collapse_len shape [istr] 0 h01
  have hloc : ∀ e, elem_to_loc e (collapse_contiguous_dims shape [istr]).1
      ((collapse_contiguous_dims shape [istr]).2.getD 0 [])
      = elem_to_loc e shape istr := by
    intro e
    have := elem_to_loc_collapse shape [istr] 0 h01 (by rw [hg]; exact h) e
    rwa [hg] at this
  have hp : (collapse_contiguous_dims shape [istr]).1.prod = shape.prod :=
    collapse_prod shape [istr]
  unfold copy_general
  simp only []
  by_cases hc : 1 ≤ (collapse_contiguous_dims shape [istr]).1.length ∧
      (collapse_contiguous_dims shape [istr]).1.length ≤ 7
  · rw [if_pos hc, copy_general_dims_eq src cast _ _ ioff (le_of_eq hcl.symm), hp]
    exact List.map_congr_left fun j _ => by rw [hloc j]
  · rw [if_neg hc]
    exact List.map_congr_left fun j _ => by rw [hloc j]

/-! ## The dual-stride loop nest as a sequence of `elem_to_loc` stores -/

theorem cgg_base (src : Int → α) (cast : α → β) (d : Nat) (si : Int) (sis : List Int)
    (so : Int) (sos : List Int) (ioff ooff : Int) (dst : Int → β) :
    copy_general_general_dims src cast [d] (si :: sis) (so :: sos) ioff ooff dst
      = (List.range d).foldl
          (fun acc (i : Nat) =>
            store acc (ooff + so * i) (cast (src (ioff + si * i)))) dst := by
  rw [copy_general_general_dims]

theorem cgg_step (src : Int → α) (cast : α → β) (d d2 : Nat) (ds : List Nat)
    (si : Int) (sis : List Int) (so : Int) (sos : List Int)
    (ioff ooff : Int) (dst : Int → β) :
    copy_general_general_dims src cast (d :: d2 :: ds) (si :: sis) (so :: sos) ioff ooff dst
      = (List.range d).foldl
          (fun acc (i : Nat) =>
            copy_general_general_dims src cast (d2 :: ds) sis sos
              (ioff + si * i) (ooff + so * i) acc) dst := by
  rw [copy_general_general_dims]
  exact fun h => List.cons_ne_nil d2 ds h

theorem copy_general_general_dims_eq (src : Int → α) (cast : α → β) :
    ∀ (shape : List Nat) (istr ostr : List Int) (ioff ooff : Int) (dst : Int → β),
    shape ≠ [] → shape.length ≤ istr.length → shape.length ≤ ostr.length →
    copy_general_general_dims src cast shape istr ostr ioff ooff dst
      = (List.range shape.prod).foldl
          (fun acc j => store acc (ooff + elem_to_loc j shape ostr)
            (cast (src (ioff + elem_to_loc j shape istr)))) dst := by
  intro shape
  induction shape with
  | nil => intro _ _ _ _ _ hne; exact absurd rfl hne
  | cons d ds ih =>
      intro istr ostr ioff ooff dst hne h1 h2
      cases istr with
      | nil => simp at h1
      | cons si sis =>
      cases ostr with
      | nil => simp at h2
      | cons so sos =>
      cases ds with
      | nil =>
          rw [cgg_base, List.prod_cons, List.prod_nil, Nat.mul_one]
          apply List.foldl_ext
          intro acc j hj
          have hjd : j < d := List.mem_range.mp hj
          have e1 : elem_to_loc j [d] (so :: sos) = (j : Int) * so := by
            unfold elem_to_loc
            simp [loc, Nat.mod_eq_of_lt hjd]
          have e2 : elem_to_loc j [d] (si :: sis) = (j : Int) * si := by
            unfold elem_to_loc
            simp [loc, Nat.mod_eq_of_lt hjd]
          rw [e1, e2]
          have hk : ooff + so * (j : Int) = ooff + (j : Int) * so := by ring
          have hv : ioff + si * (j : Int) = ioff + (j : Int) * si := by ring
          rw [hk, hv]
      | cons d2 ds2 =>
          rw [cgg_step, List.prod_cons, foldl_range_mul]
          apply List.foldl_ext
          intro acc i hi
          have hid : i < d := List.mem_range.mp hi
          rw [ih sis sos (ioff + si * (i : Int)) (ooff + so * (i : Int)) acc
            (by simp) (by simpa using h1) (by simpa using h2)]
          apply List.foldl_ext
          intro acc2 j hj
          have hjP : j < (d2 :: ds2).prod := List.mem_range.mp hj
          rw [elem_to_loc_mul_add i j d so (d2 :: ds2) sos (by simpa using h2) hjP hid,
            elem_to_loc_mul_add i j d si (d2 :: ds2) sis (by simpa using h1) hjP hid]
          have hk : ooff + so * (i : Int) + elem_to_loc j (d2 :: ds2) sos
              = ooff + (elem_to_loc j (d2 :: ds2) sos + (i : Int) * so) := by ring
          have hv : ioff + si * (i : Int) + elem_to_loc j (d2 :: ds2) sis
              = ioff + (elem_to_loc j (d2 :: ds2) sis + (i : Int) * si) := by ring
          rw [hk, hv]

/-! ## Splitting `elem_to_loc` at a chunk boundary -/

theorem elem_to_loc_append (outS inS : List Nat) (outT inT : List Int)
    (hout : outS.length = outT.length) (hin : inS.length ≤ inT.length) (e : Nat) :
    elem_to_loc e (outS ++ inS) (outT ++ inT)
      = elem_to_loc e inS inT + elem_to_loc (e / inS.prod) outS outT := by
  unfold elem_to_loc
  rw [List.zip_append hout, List.reverse_append, loc_append, zip_reverse_prod inS inT hin]

theorem elem_to_loc_chunk_start (outS inS : List Nat) (outT inT : List Int)
    (hout : outS.length = outT.length) (hin : inS.length ≤ inT.length)
    (hP : 0 < inS.prod) (c : Nat) :
    elem_to_loc (c * inS.prod) (outS ++ inS) (outT ++ inT)
      = elem_to_loc c outS outT := by
  rw [elem_to_loc_append outS inS outT inT hout hin]
  have h1 : c * inS.prod = 0 + inS.prod * c := by ring
  rw [h1, elem_to_loc_add_mul 0 c inS inT hin]
  have h2 : elem_to_loc 0 inS inT = 0 := loc_zero _
  rw [h2, ← h1, Nat.mul_div_cancel c hP, zero_add]

theorem elem_to_loc_chunk (outS inS : List Nat) (outT inT : List Int)
    (hout : outS.length = outT.length) (hin : inS.length ≤ inT.length)
    (c j : Nat) (hj : j < inS.prod) :
    elem_to_loc (c * inS.prod + j) (outS ++ inS) (outT ++ inT)
      = elem_to_loc j inS inT + elem_to_loc c outS outT := by
  have hP : 0 < inS.prod := Nat.pos_of_ne_zero fun h0 => by simp [h0] at hj
  rw [elem_to_loc_append outS inS outT inT hout hin]
  have h1 : c * inS.prod + j = j + inS.prod * c := by ring
  rw [h1, elem_to_loc_add_mul j c inS inT hin]
  have h2 : (j + inS.prod * c) / inS.prod = c := by
    rw [Nat.add_mul_div_left _ _ hP, Nat.div_eq_of_lt hj, Nat.zero_add]
  rw [h2]

/-! ## Correctness of `copy_general_general` against the dual reference -/

theorem cgg_fallback_eq (src : Int → α) (cast : α → β) (ns : List Nat)
    (is0 os0 : List Int) (ioff ooff : Int) (dst : Int → β)
    (hlen0 : is0.length = ns.length) (hlen1 : os0.length = ns.length)
    (h6 : 6 ≤ ns.length) :
    (List.range ((ns.prod + (ns.drop (ns.length - 5)).prod - 1)
        / (ns.drop (ns.length - 5)).prod)).foldl
      (fun acc (c : Nat) =>
        copy_general_general_dims src cast (ns.drop (ns.length - 5))
          (is0.drop (is0.length - 5)) (os0.drop (os0.length - 5))
          (ioff + elem_to_loc (c * (ns.drop (ns.length - 5)).prod) ns is0)
          (ooff + elem_to_loc (c * (ns.drop (ns.length - 5)).prod) ns os0) acc) dst
      = (List.range ns.prod).foldl
          (fun acc j => store acc (ooff + elem_to_loc j ns os0)
            (cast (src (ioff + elem_to_loc j ns is0)))) dst := by
  have hik : is0.length - 5 = ns.length - 5 := by rw [hlen0]
  have hok : os0.length - 5 = ns.length - 5 := by rw [hlen1]
  rw [hik, hok]
  rcases Nat.eq_zero_or_pos (ns.drop (ns.length - 5)).prod with hP0 | hP
  · have hnp : ns.prod = 0 := by
      rw [← List.prod_take_mul_prod_drop ns (ns.length - 5), hP0, Nat.mul_zero]
    rw [hnp, hP0]
    simp
  · have hlt5 : (ns.drop (ns.length - 5)).length = 5 := by
      rw [List.length_drop]; omega
    have hne5 : ns.drop (ns.length - 5) ≠ [] := by
      intro h; rw [h] at hlt5; simp at hlt5
    have hin : (ns.drop (ns.length - 5)).length ≤ (is0.drop (ns.length - 5)).length := by
      rw [List.length_drop, List.length_drop, hlen0]
    have hon : (ns.drop (ns.length - 5)).length ≤ (os0.drop (ns.length - 5)).length := by
      rw [List.length_drop, List.length_drop, hlen1]
    have hnsp : ns.prod = (ns.take (ns.length - 5)).prod * (ns.drop (ns.length - 5)).prod :=
      (List.prod_take_mul_prod_drop ns (ns.length - 5)).symm
    have hchunks : (ns.prod + (ns.drop (ns.length - 5)).prod - 1)
        / (ns.drop (ns.length - 5)).prod = (ns.take (ns.length - 5)).prod := by
      rw [hnsp]
      have h1' : (ns.take (ns.length - 5)).prod * (ns.drop (ns.length - 5)).prod
            + (ns.drop (ns.length - 5)).prod - 1
          = (ns.drop (ns.length - 5)).prod * (ns.take (ns.length - 5)).prod
            + ((ns.drop (ns.length - 5)).prod - 1) := by
        rw [Nat.mul_comm]; omega
      rw [h1', Nat.mul_add_div hP, Nat.div_eq_of_lt (by omega), Nat.add_zero]
    rw [hchunks]
    conv_rhs => rw [hnsp]
    rw [foldl_range_mul]
    apply List.foldl_ext
    intro acc c _
    rw [copy_general_general_dims_eq src cast _ _ _ _ _ acc hne5 hin hon]
    apply List.foldl_ext
    intro acc2 j hj
    have hjP : j < (ns.drop (ns.length - 5)).prod := List.mem_range.mp hj
    have hout_i : (ns.take (ns.length - 5)).length = (is0.take (ns.length - 5)).length := by
      rw [List.length_take, List.length_take, hlen0]
    have hout_o : (ns.take (ns.length - 5)).length = (os0.take (ns.length - 5)).length := by
      rw [List.length_take, List.length_take, hlen1]
    have hchunk_i := elem_to_loc_chunk (ns.take (ns.length - 5)) (ns.drop (ns.length - 5))
      (is0.take (ns.length - 5)) (is0.drop (ns.length - 5)) hout_i hin c j hjP
    have hchunk_o := elem_to_loc_chunk (ns.take (ns.length - 5)) (ns.drop (ns.length - 5))
      (os0.take (ns.length - 5)) (os0.drop (ns.length - 5)) hout_o hon c j hjP
    have hstart_i := elem_to_loc_chunk_start (ns.take (ns.length - 5)) (ns.drop (ns.length - 5))
      (is0.take (ns.length - 5)) (is0.drop (ns.length - 5)) hout_i hin hP c
    have hstart_o := elem_to_loc_chunk_start (ns.take (ns.length - 5)) (ns.drop (ns.length - 5))
      (os0.take (ns.length - 5)) (os0.drop (ns.length - 5)) hout_o hon hP c
    rw [List.take_append_drop, List.take_append_drop] at hchunk_i hchunk_o hstart_i hstart_o
    rw [hchunk_i, hchunk_o, hstart_i, hstart_o]
    have hk : ooff + elem_to_loc c (ns.take (ns.length - 5)) (os0.take (ns.length - 5))
          + elem_to_loc j (ns.drop (ns.length - 5)) (os0.drop (ns.length - 5))
        = ooff + (elem_to_loc j (ns.drop (ns.length - 5)) (os0.drop (ns.length - 5))
          + elem_to_loc c (ns.take (ns.length - 5)) (os0.take (ns.length - 5))) := by ring
    have hv : ioff + elem_to_loc c (ns.take (ns.length - 5)) (is0.take (ns.length - 5))
          + elem_to_loc j (ns.drop (ns.length - 5)) (is0.drop (ns.length - 5))
        = ioff + (elem_to_loc j (ns.drop (ns.length - 5)) (is0.drop (ns.length - 5))
          + elem_to_loc c (ns.take (ns.length - 5)) (is0.take (ns.length - 5))) := by ring
    rw [hk, hv]

theorem copy_general_general_correct (src : Int → α) (cast : α → β)
    (shape : List Nat) (istr ostr : List Int) (ioff ooff : Int) (dst : Int → β)
    (h1 : istr.length = shape.length) (h2 : ostr.length = shape.length)
    (hne : shape ≠ []) :
    copy_general_general src cast shape istr ostr ioff ooff shape.prod dst
      = general_general_ref src cast shape istr ostr ioff ooff dst := by
  have hg0 : ([istr, ostr] : List (List Int)).getD 0 [] = istr := rfl
  have hg1 : ([istr, ostr] : List (List Int)).getD 1 [] = ostr := rfl
  have h02 : (0 : Nat) < ([istr, ostr] : List (List Int)).length := by simp
  have h12 : (1 : Nat) < ([istr, ostr] : List (List Int)).length := by simp
  have hlen0 : ((collapse_contiguous_dims shape [istr, ostr]).2.getD 0 []).length
      = (collapse_contiguous_dims shape [istr, ostr]).1.length :=
    collapse_len shape [istr, ostr] 0 h02
  have hlen1 : ((collapse_contiguous_dims shape [istr, ostr]).2.getD 1 []).length
      = (collapse_contiguous_dims shape [istr, ostr]).1.length :=
    collapse_len shape [istr, ostr] 1 h12
  have hloc0 : ∀ e, elem_to_loc e (collapse_contiguous_dims shape [istr, ostr]).1
      ((collapse_contiguous_dims shape [istr, ostr]).2.getD 0 [])
      = elem_to_loc e shape istr := by
    intro e
    have := elem_to_loc_collapse shape [istr, ostr] 0 h02 (by rw [hg0]; exact h1) e
    rwa [hg0] at this
  have hloc1 : ∀ e, elem_to_loc e (collapse_contiguous_dims shape [istr, ostr]).1
      ((collapse_contiguous_dims shape [istr, ostr]).2.getD 1 [])
      = elem_to_loc e shape ostr := by
    intro e
    have := elem_to_loc_collapse shape [istr, ostr] 1 h12 (by rw [hg1]; exact h2) e
    rwa [hg1] at this
  have hp : (collapse_contiguous_dims shape [istr, ostr]).1.prod = shape.prod :=
    collapse_prod shape [istr, ostr]
  have hnn : (collapse_contiguous_dims shape [istr, ostr]).1 ≠ [] :=
    collapse_ne_nil shape [istr, ostr] hne
  unfold copy_general_general general_general_ref
  simp only []
  by_cases hc : 1 ≤ (collapse_contiguous_dims shape [istr, ostr]).1.length ∧
      (collapse_contiguous_dims shape [istr, ostr]).1.length ≤ 5
  · rw [if_pos hc,
      copy_general_general_dims_eq src cast _ _ _ ioff ooff dst hnn
        (le_of_eq hlen0.symm) (le_of_eq hlen1.symm),
      hp]
    apply List.foldl_ext
    intro acc j _
    rw [hloc0 j, hloc1 j]
  · rw [if_neg hc]
    have h6 : 6 ≤ (collapse_contiguous_dims shape [istr, ostr]).1.length := by
      have hpos : 0 < (collapse_contiguous_dims shape [istr, ostr]).1.length :=
        List.length_pos.mpr hnn
      omega
    have hfb := cgg_fallback_eq src cast (collapse_contiguous_dims shape [istr, ostr]).1
      ((collapse_contiguous_dims shape [istr, ostr]).2.getD 0 [])
      ((collapse_contiguous_dims shape [istr, ostr]).2.getD 1 [])
      ioff ooff dst hlen0 hlen1 h6
    rw [hp] at hfb
    rw [hfb]
    apply List.foldl_ext
    intro acc j _
    rw [hloc0 j, hloc1 j]

/-! ## Row-major strides, buffer install, and small kernel facts -/

theorem rowMajor_length (shape : List Nat) : (rowMajor shape).length = shape.length := by
  induction shape with
  | nil => rfl
  | cons d ds ih => simp [rowMajor, ih]

theorem elem_to_loc_rowMajor (j : Nat) (shape : List Nat) :
    elem_to_loc j shape (rowMajor shape) = ((j % shape.prod : Nat) : Int) := by
  induction shape generalizing j with
  | nil => simp [elem_to_loc, loc]
  | cons d ds ih =>
      rw [rowMajor, elem_to_loc_cons j d _ ds (rowMajor ds) (le_of_eq (rowMajor_length ds).symm),
        ih]
      have hm : j % (d * ds.prod) = j % ds.prod + ds.prod * (j / ds.prod % d) := by
        rw [Nat.mul_comm d]; exact Nat.mod_mul
      rw [List.prod_cons, hm]
      push_cast
      ring

theorem writeList_get (dst0 : Int → β) (l : List β) (j : Nat) (h : j < l.length) :
    writeList dst0 l (j : Int) = l.get ⟨j, h⟩ := by
  have hc : 0 ≤ (j : Int) ∧ ((j : Int)).toNat < l.length := ⟨Int.ofNat_nonneg j, by simpa using h⟩
  unfold writeList
  rw [dif_pos hc]
  congr 1

theorem copy_single_eq_replicate (src : Int → α) (cast : α → β) (n : Nat) :
    copy_single src cast n = List.replicate n (cast (src 0)) := by
  unfold copy_single
  rw [List.map_const', List.length_range]

theorem copy_vector_get (src : Int → α) (cast : α → β) (n j : Nat) (h : j < n) :
    (copy_vector src cast n).get ⟨j, by simpa [copy_vector] using h⟩ = cast (src j) := by
  unfold copy_vector
  rw [List.get_eq_getElem, List.getElem_map, List.getElem_range]

/-! ## Claim theorems -/

/-- C1: for every source view with shape of rank at most 8 and arbitrary
stride vectors, the collapsed specialized-kernel paths — single-stride
`copy_general` and dual-stride `copy_general_general` — equal the
brute-force reference that computes each destination element's source
offset independently via `elem_to_loc` from the original, uncollapsed
shape and strides: destination element `j` receives the cast of the source
element at offset `i_offset` plus the strides-weighted multi-index of `j`. -/
theorem collapsed_paths_match_brute_force (src : Int → α) (cast : α → β)
    (shape : List Nat) (istr ostr : List Int) (ioff ooff : Int) (dst0 : Int → β)
    (h1 : istr.length = shape.length) (h8 : shape.length ≤ 8) :
    copy_general src cast shape istr ioff shape.prod
      = (List.range shape.prod).map
          (fun (j : Nat) => cast (src (ioff + elem_to_loc j shape istr)))
    ∧ (ostr.length = shape.length → shape ≠ [] →
        copy_general_general src cast shape istr ostr ioff ooff shape.prod dst0
          = general_general_ref src cast shape istr ostr ioff ooff dst0) :=
  ⟨copy_general_correct src cast shape istr ioff h1,
   fun h2 hne =>
     copy_general_general_correct src cast shape istr ostr ioff ooff dst0 h1 h2 hne⟩

theorem collapsed_paths_match_brute_force_witness :
    (([1, 3] : List Int).length = ([3, 2] : List Nat).length)
    ∧ (([3, 2] : List Nat).length ≤ 8)
    ∧ copy_general (fun i : Int => i) (fun x : Int => x) [3, 2] [1, 3] 0
          (([3, 2] : List Nat).prod)
        = (List.range (([3, 2] : List Nat).prod)).map
            (fun (j : Nat) => (fun x : Int => x)
              ((fun i : Int => i) (0 + elem_to_loc j [3, 2] [1, 3])))
    ∧ copy_general_general (fun i : Int => i) (fun x : Int => x) [3, 2] [1, 3] [2, 1]
          0 0 (([3, 2] : List Nat).prod) (fun _ => 0)
        = general_general_ref (fun i : Int => i) (fun x : Int => x) [3, 2] [1, 3] [2, 1]
            0 0 (fun _ => 0) :=
  ⟨by decide, by decide,
   (collapsed_paths_match_brute_force (fun i : Int => i) (fun x : Int => x) [3, 2]
      [1, 3] [2, 1] 0 0 (fun _ => 0) (by decide) (by decide)).1,
   (collapsed_paths_match_brute_force (fun i : Int => i) (fun x : Int => x) [3, 2]
      [1, 3] [2, 1] 0 0 (fun _ => 0) (by decide) (by decide)).2 (by decide) (by decide)⟩

/-- C2: running the top-level `copy` with strategy `GeneralGeneral` (which
freshly allocates the destination) fills the destination exactly as the
`General` single-stride kernel does with the same source shape and strides
against that contiguous destination; the orchestrator's downgrade of
`GeneralGeneral` to `General` before dispatch does not change the result. -/
theorem general_general_downgrade_equivalence (src : SrcArr α) (cast : α → β)
    (dst : DstDesc) (dst0 : Int → β) (fresh : Nat) :
    (copy src cast dst dst0 fresh CopyType.GeneralGeneral).contents
      = writeList dst0 (copy_general src.data cast src.shape src.strides 0 dst.size)
    ∧ (copy src cast dst dst0 fresh CopyType.GeneralGeneral).contents
      = (copy src cast dst dst0 fresh CopyType.General).contents :=
  ⟨rfl, rfl⟩

/-- C3, counterexample: with a donatable source of equal element size under
the `Vector` strategy, the destination shares the source buffer and nothing
is allocated, but the claim's final conjunct — "no element-wise loop
executes" — is false: `copy_inplace` still runs `copy_vector`, so the
element-wise loop executes `data_size(src) = 2` times. -/
theorem donation_no_loop_refuted :
    ¬ ((copy (⟨7, fun _ => (5 : Int), [2], [1], 2, 4, true, 3⟩ : SrcArr Int)
          (fun x : Int => x) (⟨[2], [1], 4, 9⟩ : DstDesc) (fun _ => 0) 8
          CopyType.Vector).dstBuf = 7
        ∧ (copy (⟨7, fun _ => (5 : Int), [2], [1], 2, 4, true, 3⟩ : SrcArr Int)
            (fun x : Int => x) (⟨[2], [1], 4, 9⟩ : DstDesc) (fun _ => 0) 8
            CopyType.Vector).alloc = none
        ∧ (copy (⟨7, fun _ => (5 : Int), [2], [1], 2, 4, true, 3⟩ : SrcArr Int)
            (fun x : Int => x) (⟨[2], [1], 4, 9⟩ : DstDesc) (fun _ => 0) 8
            CopyType.Vector).loopWrites = 0) := by
  intro h
  exact absurd h.2.2 (by decide)

/-- C3, amended: when the source is donatable and element sizes match under
the `Vector` strategy, the destination's data pointer equals the source's
original data pointer and no buffer allocation is performed; however the
element-wise cast loop still executes — `copy_vector` runs over the shared
buffer, performing `data_size(src)` element writes (converting in place). -/
theorem donation_shares_buffer_loop_still_runs (src : SrcArr α) (cast : α → β)
    (dst : DstDesc) (dst0 : Int → β) (fresh : Nat)
    (hd : src.donatable = true) (hs : src.itemsize = dst.itemsize) :
    (copy src cast dst dst0 fresh CopyType.Vector).dstBuf = src.buf
    ∧ (copy src cast dst dst0 fresh CopyType.Vector).alloc = none
    ∧ (copy src cast dst dst0 fresh CopyType.Vector).loopWrites = src.data_size := by
  have hcond : src.donatable = true ∧ src.itemsize = dst.itemsize := ⟨hd, hs⟩
  refine ⟨?_, ?_, rfl⟩ <;> simp [copy, if_pos hcond]

theorem donation_shares_buffer_loop_still_runs_witness :
    ((⟨7, fun _ => (5 : Int), [2], [1], 2, 4, true, 3⟩ : SrcArr Int).donatable = true)
    ∧ ((⟨7, fun _ => (5 : Int), [2], [1], 2, 4, true, 3⟩ : SrcArr Int).itemsize
        = (⟨[2], [1], 4, 9⟩ : DstDesc).itemsize)
    ∧ ((copy (⟨7, fun _ => (5 : Int), [2], [1], 2, 4, true, 3⟩ : SrcArr Int)
          (fun x : Int => x) (⟨[2], [1], 4, 9⟩ : DstDesc) (fun _ => 0) 8
          CopyType.Vector).dstBuf = 7
        ∧ (copy (⟨7, fun _ => (5 : Int), [2], [1], 2, 4, true, 3⟩ : SrcArr Int)
            (fun x : Int => x) (⟨[2], [1], 4, 9⟩ : DstDesc) (fun _ => 0) 8
            CopyType.Vector).alloc = none
        ∧ (copy (⟨7, fun _ => (5 : Int), [2], [1], 2, 4, true, 3⟩ : SrcArr Int)
            (fun x : Int => x) (⟨[2], [1], 4, 9⟩ : DstDesc) (fun _ => 0) 8
            CopyType.Vector).loopWrites = 2) :=
  ⟨by decide, by decide,
   donation_shares_buffer_loop_still_runs
     (⟨7, fun _ => (5 : Int), [2], [1], 2, 4, true, 3⟩ : SrcArr Int)
     (fun x : Int => x) (⟨[2], [1], 4, 9⟩ : DstDesc) (fun _ => 0) 8
     (by decide) (by decide)⟩

/-- C4: under the `Scalar` strategy, every destination element — for any
destination shape, rank 0 included — receives the same value: the single
source element cast to the destination type. -/
theorem scalar_broadcast_constant (src : SrcArr α) (cast : α → β) (dst : DstDesc)
    (dst0 : Int → β) (fresh : Nat) (j : Nat) (hj : j < dst.size) :
    (copy src cast dst dst0 fresh CopyType.Scalar).contents (j : Int)
      = cast (src.data 0) := by
  have hlen : j < (copy_single src.data cast dst.size).length := by
    simpa [copy_single] using hj
  show writeList dst0 (copy_single src.data cast dst.size) (j : Int) = cast (src.data 0)
  rw [writeList_get dst0 _ j hlen]
  unfold copy_single
  rw [List.get_eq_getElem, List.getElem_map]

theorem scalar_broadcast_constant_witness :
    (0 < (⟨[], [], 4, 0⟩ : DstDesc).size)
    ∧ (copy (⟨1, fun _ => (7 : Int), [], [], 1, 4, false, 0⟩ : SrcArr Int)
        (fun x : Int => x) (⟨[], [], 4, 0⟩ : DstDesc) (fun _ => 0) 5
        CopyType.Scalar).contents ((0 : Nat) : Int) = 7 :=
  ⟨by decide,
   scalar_broadcast_constant (⟨1, fun _ => (7 : Int), [], [], 1, 4, false, 0⟩ : SrcArr Int)
     (fun x : Int => x) (⟨[], [], 4, 0⟩ : DstDesc) (fun _ => 0) 5 0 (by decide)⟩

/-- C5: the per-element narrowing cast to a `w`-bit unsigned integer
destination wraps the value modulo `2^w` (two's-complement truncation), as
observed through the `copy_single` and `copy_general_dim1` kernels; in
particular the integer 300 cast to an 8-bit unsigned destination yields 44. -/
theorem narrowing_uint_cast_wraps (x : Int) (w n : Nat) (s ioff : Int)
    (h : (2 : Int) ^ w ≤ |x|) :
    copy_single (fun _ => x) (uint_cast w) n = List.replicate n (x % (2 : Int) ^ w)
    ∧ copy_general_dim1 (fun _ => x) (uint_cast w) [n] [s] ioff
        = List.replicate n (x % (2 : Int) ^ w)
    ∧ uint_cast 8 300 = 44 := by
  refine ⟨copy_single_eq_replicate _ _ n, ?_, by decide⟩
  unfold copy_general_dim1 uint_cast
  simp [List.map_const']

theorem narrowing_uint_cast_wraps_witness :
    ((2 : Int) ^ 8 ≤ |(300 : Int)|)
    ∧ copy_single (fun _ => (300 : Int)) (uint_cast 8) 2 = List.replicate 2 44
    ∧ copy_general_dim1 (fun _ => (300 : Int)) (uint_cast 8) [2] [1] 0
        = List.replicate 2 44
    ∧ uint_cast 8 300 = 44 := by
  have h := narrowing_uint_cast_wraps 300 8 2 1 0 (by decide)
  have h44 : (300 : Int) % (2 : Int) ^ 8 = 44 := by decide
  exact ⟨by decide, by rw [h.1, h44], by rw [h.2.1, h44], h.2.2⟩

/-- C6: for any shape, the `Vector` strategy's flat cast path and the
`General` strategy given identity (row-major contiguous) strides produce
identical destination contents. -/
theorem vector_equals_general_identity_strides (src : Int → α) (cast : α → β)
    (shape : List Nat) :
    copy_general src cast shape (rowMajor shape) 0 shape.prod
      = copy_vector src cast shape.prod := by
  rw [copy_general_correct src cast shape (rowMajor shape) 0 (rowMajor_length shape)]
  unfold copy_vector
  apply List.map_congr_left
  intro j hj
  have hjp : j < shape.prod := List.mem_range.mp hj
  rw [elem_to_loc_rowMajor, Nat.mod_eq_of_lt hjp, zero_add]

/-- C7: the `Vector` strategy without donation allocates exactly
`data_size(src) * itemsize(dst)` bytes and the destination inherits the
source's strides and flags; the `Scalar`, `General` and `GeneralGeneral`
strategies allocate exactly `nbytes(dst)` bytes. -/
theorem allocation_sizes (src : SrcArr α) (cast : α → β) (dst : DstDesc)
    (dst0 : Int → β) (fresh : Nat) :
    (¬ (src.donatable = true ∧ src.itemsize = dst.itemsize) →
      (copy src cast dst dst0 fresh CopyType.Vector).alloc
          = some (src.data_size * dst.itemsize)
      ∧ (copy src cast dst dst0 fresh CopyType.Vector).dstStrides = src.strides
      ∧ (copy src cast dst dst0 fresh CopyType.Vector).dstFlags = src.flagsTok)
    ∧ (∀ ctype : CopyType,
        ctype = CopyType.Scalar ∨ ctype = CopyType.General ∨
          ctype = CopyType.GeneralGeneral →
        (copy src cast dst dst0 fresh ctype).alloc = some dst.nbytes) := by
  constructor
  · intro hnd
    refine ⟨?_, ?_, ?_⟩ <;> simp [copy, if_neg hnd]
  · intro ctype hct
    rcases hct with h | h | h <;> subst h <;> rfl

theorem allocation_sizes_witness :
    (¬ ((⟨7, fun _ => (5 : Int), [2], [1], 2, 8, false, 3⟩ : SrcArr Int).donatable = true
        ∧ (⟨7, fun _ => (5 : Int), [2], [1], 2, 8, false, 3⟩ : SrcArr Int).itemsize
          = (⟨[2], [1], 4, 9⟩ : DstDesc).itemsize))
    ∧ (copy (⟨7, fun _ => (5 : Int), [2], [1], 2, 8, false, 3⟩ : SrcArr Int)
        (fun x : Int => x) (⟨[2], [1], 4, 9⟩ : DstDesc) (fun _ => 0) 8
        CopyType.Vector).alloc = some (2 * 4)
    ∧ (copy (⟨7, fun _ => (5 : Int), [2], [1], 2, 8, false, 3⟩ : SrcArr Int)
        (fun x : Int => x) (⟨[2], [1], 4, 9⟩ : DstDesc) (fun _ => 0) 8
        CopyType.Scalar).alloc = some (⟨[2], [1], 4, 9⟩ : DstDesc).nbytes :=
  ⟨by decide,
   ((allocation_sizes (⟨7, fun _ => (5 : Int), [2], [1], 2, 8, false, 3⟩ : SrcArr Int)
      (fun x : Int => x) (⟨[2], [1], 4, 9⟩ : DstDesc) (fun _ => 0) 8).1 (by decide)).1,
   (allocation_sizes (⟨7, fun _ => (5 : Int), [2], [1], 2, 8, false, 3⟩ : SrcArr Int)
      (fun x : Int => x) (⟨[2], [1], 4, 9⟩ : DstDesc) (fun _ => 0) 8).2
     CopyType.Scalar (Or.inl rfl)⟩

/-- C8: for every ordered pair of the 13 dtype tags and every strategy tag,
the two-level type dispatch reaches a concrete cast kernel — the switches
enumerate the closed dtype set exhaustively, with no runtime default or
error branch and no exception path. -/
theorem dispatch_exhaustive_total :
    ∀ (s d : Dtype) (ctype : CopyType),
    copy_inplace_dispatch s d ctype = some (s, d, copy_kernel_select ctype) := by
  intro s d ctype
  cases s <;> cases d <;> rfl

/-- C9: in the strided `copy_inplace` entry point, `General` discards the
supplied `o_strides`/`o_offset` (the forwarding overload of `copy_general`
drops them), always writing the destination at linear positions starting
from 0, so the result is independent of them; `Scalar` and `Vector` ignore
all of the explicit shape, stride, and offset parameters and behave exactly
like the unstrided `copy_inplace` variant. -/
theorem strided_inplace_forwarding (src : SrcArr α) (cast : α → β) (dst : DstDesc)
    (dst0 : Int → β) (data_shape : List Nat) (istr ostr ostr' : List Int)
    (ioff ooff ooff' : Int) :
    copy_inplace_strided src cast dst dst0 data_shape istr ostr ioff ooff
        CopyType.General
      = writeList dst0 (copy_general src.data cast data_shape istr ioff dst.size)
    ∧ copy_inplace_strided src cast dst dst0 data_shape istr ostr ioff ooff
        CopyType.General
      = copy_inplace_strided src cast dst dst0 data_shape istr ostr' ioff ooff'
          CopyType.General
    ∧ copy_inplace_strided src cast dst dst0 data_shape istr ostr ioff ooff
        CopyType.Scalar
      = copy_inplace src cast dst dst0 CopyType.Scalar
    ∧ copy_inplace_strided src cast dst dst0 data_shape istr ostr ioff ooff
        CopyType.Vector
      = copy_inplace src cast dst dst0 CopyType.Vector :=
  ⟨rfl, rfl, rfl, rfl⟩

/-- C10: every `Vector`-strategy copy converts exactly `data_size(src)`
elements in order — destination element `i` is the cast of source element
`i` — and the destination's logical shape and strides play no role in the
number of elements copied or in the contents. -/
theorem vector_copies_exactly_data_size (src : SrcArr α) (cast : α → β)
    (dst : DstDesc) (dst0 : Int → β) (fresh : Nat) :
    (copy src cast dst dst0 fresh CopyType.Vector).loopWrites = src.data_size
    ∧ (∀ j : Nat, j < src.data_size →
        (copy src cast dst dst0 fresh CopyType.Vector).contents (j : Int)
          = cast (src.data (j : Int)))
    ∧ (∀ (shape2 : List Nat) (strides2 : List Int),
        (copy src cast ⟨shape2, strides2, dst.itemsize, dst.flagsTok⟩ dst0 fresh
            CopyType.Vector).contents
          = (copy src cast dst dst0 fresh CopyType.Vector).contents
        ∧ (copy src cast ⟨shape2, strides2, dst.itemsize, dst.flagsTok⟩ dst0 fresh
            CopyType.Vector).loopWrites
          = (copy src cast dst dst0 fresh CopyType.Vector).loopWrites) := by
  refine ⟨rfl, ?_, fun shape2 strides2 => ⟨rfl, rfl⟩⟩
  intro j hj
  have hlen : j < (copy_vector src.data cast src.data_size).length := by
    simpa [copy_vector] using hj
  show writeList dst0 (copy_vector src.data cast src.data_size) (j : Int)
    = cast (src.data (j : Int))
  rw [writeList_get dst0 _ j hlen, copy_vector_get src.data cast src.data_size j hj]

theorem vector_copies_exactly_data_size_witness :
    ((1 : Nat) < (⟨7, fun i => i, [2], [1], 2, 4, false, 3⟩ : SrcArr Int).data_size)
    ∧ (copy (⟨7, fun i => i, [2], [1], 2, 4, false, 3⟩ : SrcArr Int)
        (fun x : Int => x) (⟨[2], [1], 4, 9⟩ : DstDesc) (fun _ => 0) 8
        CopyType.Vector).contents ((1 : Nat) : Int) = 1 :=
  ⟨by decide,
   (vector_copies_exactly_data_size (⟨7, fun i => i, [2], [1], 2, 4, false, 3⟩ : SrcArr Int)
      (fun x : Int => x) (⟨[2], [1], 4, 9⟩ : DstDesc) (fun _ => 0) 8).2.1 1 (by decide)⟩

end Mlx
